import Mathlib

/-!
Verification development for the `instatory` image-cataloging script
(`src/main.py`).  The Python source is shallowly embedded below:

* strings are modelled as `List Char` (with `String` wrappers at the API
  boundary), Python `str.join` / `str.split` / `str.strip` / `str.replace`
  are modelled char-by-char;
* `json.loads` (Python stdlib, external to the repository) is modelled by
  a recursive-descent parser for the fragment actually exercised here:
  flat objects whose values are double-quoted strings, plus the empty
  object;
* the `tenacity` retry decorator (external library) is modelled by an
  explicit retry combinator that re-invokes the wrapped computation while
  it signals an exception, up to the configured number of attempts;
* the filesystem is a list of paths (a path is a list of components), the
  SQLite products table is a list of rows, and the walk over the uploads
  tree is a list of `FileEntry` values in traversal order.

Each claim theorem states a property of these embedded definitions.
-/

namespace Instatory

/-! ### Characters that the repository's text manipulation depends on -/

/-- Backtick character (code 96). -/
def bq : Char := Char.ofNat 96

/-- Single-quote character (code 39): Python `response_text.replace` maps it
to a double quote. -/
def sq : Char := Char.ofNat 39

/-- Double-quote character (code 34). -/
def dq : Char := Char.ofNat 34

/-- Opening curly brace (code 123). -/
def lb : Char := Char.ofNat 123

/-- Closing curly brace (code 125). -/
def rb : Char := Char.ofNat 125

/-- Backslash character (code 92). -/
def bs : Char := Char.ofNat 92

/-! ### Python string primitives used by `main.py` -/

/-- Python `sep.join(xs)`: intercalates `sep` between the elements. -/
def pyJoin (sep : List Char) : List (List Char) → List Char
  | [] => []
  | [x] => x
  | x :: y :: ys => x ++ sep ++ pyJoin sep (y :: ys)

/-- Whether `sep` occurs as a contiguous substring of `s`
(Python `sep in s`). -/
def occurs (sep : List Char) : List Char → Bool
  | [] => sep.isEmpty
  | c :: t => sep.isPrefixOf (c :: t) || occurs sep t

/-- Locate the first occurrence of `sep` in `s`; on success return the text
before the occurrence and the text after it. -/
def findSep (sep : List Char) : List Char → Option (List Char × List Char)
  | [] => none
  | c :: t =>
    if sep.isPrefixOf (c :: t) then some ([], (c :: t).drop sep.length)
    else
      match findSep sep t with
      | some (p, r) => some (c :: p, r)
      | none => none

/-- Fuel-indexed worker for Python `s.split(sep)` (nonempty `sep`): peel off
segments at each occurrence of the separator. -/
def pySplitFuel (sep : List Char) : Nat → List Char → List (List Char)
  | 0, s => [s]
  | fuel + 1, s =>
    match findSep sep s with
    | none => [s]
    | some (p, r) => p :: pySplitFuel sep fuel r

/-- Python `s.split(sep)` for a nonempty separator. -/
def pySplit (sep s : List Char) : List (List Char) :=
  pySplitFuel sep (s.length + 1) s

/-- Whitespace test for Python `str.strip` (the whitespace characters that
can occur in the modelled responses). -/
def wsChar (c : Char) : Bool :=
  c == ' ' || c == '\n' || c == '\t' || c == '\r'

/-- Python `s.strip()`: drop leading and trailing whitespace. -/
def pyStrip (s : List Char) : List Char :=
  ((s.dropWhile wsChar).reverse.dropWhile wsChar).reverse

/-- Text after the first newline, or `none` when there is no newline
(models `s.split("\n", 1)[1]`, whose `[1]` raises when no newline exists). -/
def dropThroughFirstNl : List Char → Option (List Char)
  | [] => none
  | c :: t => if c = '\n' then some t else dropThroughFirstNl t

/-- Text before the last newline, or the whole text when there is no newline
(models `s.rsplit("\n", 1)[0]`). -/
def dropAfterLastNl (s : List Char) : List Char :=
  match dropThroughFirstNl s.reverse with
  | some t => t.reverse
  | none => s

/-- Python `s.replace(a, b)` for single characters. -/
def pyReplace (a b : Char) (s : List Char) : List Char :=
  s.map fun c => if c = a then b else c

/-! ### Values and dictionaries -/

/-- Values a parsed extractor record can carry: plain strings, lists of
strings (the source normalizes these for `description` / `key_tags`),
numbers and JSON null. -/
inductive Value where
  | str : String → Value
  | strList : List String → Value
  | num : Int → Value
  | null : Value
deriving DecidableEq

/-- A parsed record: association list from field names to values, modelling
a Python dict with distinct keys. -/
abbrev Dict := List (String × Value)

/-- String-level Python `sep.join(xs)`. -/
def joinS (sep : String) (xs : List String) : String :=
  String.mk (pyJoin sep.data (xs.map String.data))

/-- String-level Python `s.split(sep)` for a nonempty separator. -/
def splitS (sep s : String) : List String :=
  (pySplit sep.data s.data).map String.mk

/-! ### A model of `json.loads` on the fragment the script exercises

Modelled from the Python standard library (external to this repository):
a recursive-descent parser for flat JSON objects whose values are
double-quoted strings without escape sequences, plus the empty object.
Any input outside this fragment is rejected, which matches `json.loads`
on every input these claims evaluate. -/

/-- Skip JSON whitespace. -/
def skipWs : List Char → List Char
  | [] => []
  | c :: t => if wsChar c then skipWs t else c :: t

/-- Parse the body of a double-quoted string, after the opening quote;
returns the content and the text after the closing quote.  Escape
sequences are outside the modelled fragment, and unescaped control
characters (codes 0-31) are rejected, as `json.loads` does in its
default strict mode. -/
def parseStringBody : List Char → Option (List Char × List Char)
  | [] => none
  | c :: t =>
    if c = dq then some ([], t)
    else if c = bs then none
    else if c.toNat < 32 then none
    else
      match parseStringBody t with
      | some (s, r) => some (c :: s, r)
      | none => none

/-- Parse one `"key": "value"` pair. -/
def parsePair (s : List Char) : Option ((List Char × List Char) × List Char) :=
  match s with
  | [] => none
  | c :: t =>
    if c = dq then
      match parseStringBody t with
      | none => none
      | some (k, r1) =>
        match skipWs r1 with
        | [] => none
        | c2 :: r2 =>
          if c2 = ':' then
            match skipWs r2 with
            | [] => none
            | c3 :: r3 =>
              if c3 = dq then
                match parseStringBody r3 with
                | some (v, r4) => some ((k, v), r4)
                | none => none
              else none
          else none
    else none

/-- Parse a comma-separated sequence of pairs (fuel-indexed). -/
def parsePairs : Nat → List Char → Option (List (List Char × List Char) × List Char)
  | 0, _ => none
  | fuel + 1, s =>
    match parsePair s with
    | none => none
    | some (p, r) =>
      match skipWs r with
      | [] => some ([p], [])
      | c :: r2 =>
        if c = ',' then
          match parsePairs fuel (skipWs r2) with
          | some (ps, r3) => some (p :: ps, r3)
          | none => none
        else some ([p], c :: r2)

/-- Parse a whole JSON object, requiring the entire input to be consumed
(like `json.loads`). -/
def parseObj (s : List Char) : Option (List (List Char × List Char)) :=
  match skipWs s with
  | [] => none
  | c :: t =>
    if c = lb then
      match skipWs t with
      | [] => none
      | c2 :: t2 =>
        if c2 = rb then (if skipWs t2 = [] then some [] else none)
        else
          match parsePairs (s.length + 1) (c2 :: t2) with
          | none => none
          | some (ps, r) =>
            match skipWs r with
            | [] => none
            | c3 :: r3 =>
              if c3 = rb ∧ skipWs r3 = [] then some ps else none
    else none

/-- Turn parsed key/value pairs into a `Dict`.  A Python dict keeps the
last binding of a duplicated key; reversing makes the front-most binding
of the association list that last one. -/
def toDict (ps : List (List Char × List Char)) : Dict :=
  (ps.map fun p => (String.mk p.1, Value.str (String.mk p.2))).reverse

/-! ### The feature extractor `analyze_image` -/

/-- Outcome of one HTTP round trip to the backend, as observed by the
`try` block of `analyze_image`: either a `requests` exception (connection
failure or non-2xx status via `raise_for_status`) or the reply's primary
text content. -/
inductive BackendResp where
  | netFailure
  | reply : List Char → BackendResp

/-- Opening fence marker `"```json"` that `analyze_image` tests with
`startswith`. -/
def fenceOpen : List Char := [bq, bq, bq, 'j', 's', 'o', 'n']

/-- Fence stripping of `analyze_image` (lines 128-129): when the text
starts with the marker, drop the first and the last line.  `none` models
the `IndexError` that `split("\n", 1)[1]` raises when the text has no
newline (swallowed by the generic handler). -/
def fenceStrip (t : List Char) : Option (List Char) :=
  if fenceOpen.isPrefixOf t then (dropThroughFirstNl t).map dropAfterLastNl
  else some t

/-- One attempt of the body of `analyze_image` on the backend's response.
Every failure path is caught inside the function and converted to an empty
dict, so an attempt never raises: `.error` is unreachable, and the
`Except` layer exists only to expose that fact to the retry wrapper. -/
def analyzeAttempt (resp : BackendResp) : Except Unit Dict :=
  match resp with
  | .netFailure => .ok []
  | .reply t0 =>
    match fenceStrip (pyStrip t0) with
    | none => .ok []
    | some t1 =>
      match parseObj (pyReplace sq dq t1) with
      | some ps => .ok (toDict ps)
      | none => .ok []

/-- Retry combinator modelled from `tenacity`'s
`retry(wait=wait_random_exponential(min=1, max=40), stop=stop_after_attempt(n))`:
run attempt `i`; re-run while the attempt raises and retries remain; the
last attempt's failure propagates.  The randomized waits only affect
timing, not the value computed. -/
def retryStop (f : Nat → Except Unit α) : Nat → Nat → Except Unit α
  | i, 0 => f i
  | i, n + 1 =>
    match f i with
    | .ok a => .ok a
    | .error _ => retryStop f (i + 1) n

/-- Configured minimum backoff delay of the decorator on `analyze_image`. -/
def retryWaitMin : Nat := 1

/-- Configured backoff cap of the decorator on `analyze_image`. -/
def retryWaitMax : Nat := 40

/-- Configured total number of attempts of the decorator. -/
def retryMaxAttempts : Nat := 6

/-- The decorated `analyze_image`, applied to a backend giving the round
trip outcome of each attempt (attempts are numbered from 1). -/
def analyze_image (backend : Nat → BackendResp) : Except Unit Dict :=
  retryStop (fun i => analyzeAttempt (backend i)) 1 (retryMaxAttempts - 1)

/-! ### Paths and the products table -/

/-- A filesystem path, as its list of components. -/
abbrev Path := List String

/-- Upload root `data/images/uploads`. -/
def UPLOADS_DIR : Path := ["data", "images", "uploads"]

/-- Archive root `data/images/inventory`. -/
def INVENTORY_IMAGES_DIR : Path := ["data", "images", "inventory"]

/-- One file yielded by the `os.walk` traversal: the directory's path
relative to the upload root (`[]` models relpath `"."`) and the filename. -/
structure FileEntry where
  rel : Path
  name : String
deriving DecidableEq

/-- Source location of a walked file inside the uploads tree. -/
def uploadsPath (f : FileEntry) : Path :=
  UPLOADS_DIR ++ f.rel ++ [f.name]

/-- The per-run batch directory `data/images/inventory/<timestamp>`. -/
def batchDir (ts : String) : Path :=
  INVENTORY_IMAGES_DIR ++ [ts]

/-- Destination of a walked file: batch directory plus the file's relative
path, directory structure preserved (lines 220-225). -/
def destPath (ts : String) (f : FileEntry) : Path :=
  batchDir ts ++ f.rel ++ [f.name]

/-- Python `str.lower`, char by char. -/
def pyLower (s : List Char) : List Char :=
  s.map Char.toLower

/-- Extension filter of line 214: lower-cased filename ends with one of the
five image extensions. -/
def isImageFile (filename : String) : Bool :=
  [".png", ".jpg", ".jpeg", ".gif", ".webp"].any
    fun e => e.data.isSuffixOf (pyLower filename.data)

/-- One row of the `products` table (the auto-assigned id is immaterial to
the claims and omitted). -/
structure Row where
  name : Value
  description : Value
  image_url : Path
  category : Value
  material : Value
  color : Value
  dimensions : Value
  origin_source : Value
  import_cost : Value
  retail_price : Value
  key_tags : Value
deriving DecidableEq

/-- The ten required keys checked by `insert_product_info`, in source
order. -/
def requiredKeys : List String :=
  ["name", "description", "category", "material", "color", "dimensions",
   "origin_source", "import_cost", "retail_price", "key_tags"]

/-- First required key missing from the record, if any (the loop of lines
163-165 raises `KeyError` at the first absent key). -/
def firstMissing (d : Dict) : Option String :=
  requiredKeys.find? fun k => (List.lookup k d).isNone

/-- Field access `product_info[k]` after presence has been checked;
`Value.null` is an arbitrary default on the unreachable absent branch. -/
def getVal (d : Dict) (k : String) : Value :=
  (List.lookup k d).getD .null

/-- Normalization of `description` (line 168): a list of strings is joined
with newlines, anything else passes through. -/
def normalizeDescription (v : Value) : Value :=
  match v with
  | .strList xs => .str (joinS "\n" xs)
  | v => v

/-- Normalization of `key_tags` (line 169): a list of strings is joined
with a comma and space, anything else passes through. -/
def normalizeKeyTags (v : Value) : Value :=
  match v with
  | .strList xs => .str (joinS ", " xs)
  | v => v

/-- The row built and written by the `INSERT` statement. -/
def mkRow (d : Dict) (imgPath : Path) : Row :=
  { name := getVal d "name"
    description := normalizeDescription (getVal d "description")
    image_url := imgPath
    category := getVal d "category"
    material := getVal d "material"
    color := getVal d "color"
    dimensions := getVal d "dimensions"
    origin_source := getVal d "origin_source"
    import_cost := getVal d "import_cost"
    retail_price := getVal d "retail_price"
    key_tags := normalizeKeyTags (getVal d "key_tags") }

/-- Outcome of `insert_product_info`: a raised `KeyError` naming the first
missing field, a successful insert, or an `sqlite3.Error` that the
function logs and swallows (no row written, no exception raised). -/
inductive InsertOutcome where
  | keyError : String → InsertOutcome
  | inserted : Row → InsertOutcome
  | storageError : InsertOutcome
deriving DecidableEq

/-- `insert_product_info` (lines 146-191): check the ten required keys in
order, raising at the first missing one; otherwise attempt the insert,
where `storeOk` says whether the storage layer accepts the write. -/
def insert_product_info (storeOk : Bool) (d : Dict) (imgPath : Path) : InsertOutcome :=
  match firstMissing d with
  | some k => .keyError k
  | none => if storeOk then .inserted (mkRow d imgPath) else .storageError

/-- Rows actually added to the table by one `insert_product_info` call. -/
def rowsOf : InsertOutcome → List Row
  | .inserted r => [r]
  | _ => []

/-! ### The ingestion pipeline `process_uploaded_images` -/

/-- External collaborators of one pipeline run: the batch timestamp, the
image codec (`None` models an unreadable file), the feature-extractor
result per encoded image (the dict that `analyze_image` returns), and
whether the storage layer accepts inserts. -/
structure Env where
  ts : String
  encode : Path → Option String
  analyze : String → Dict
  storeOk : Bool

/-- Observable state of a run: the filesystem, the products table, the
dedup set loaded at line 200-201, and instrumentation recording each
invocation of the codec and of the extractor. -/
structure PState where
  fs : List Path
  records : List Row
  dedupSet : List Path
  encodeCalls : List Path
  analyzeCalls : List Path
deriving DecidableEq

/-- `shutil.move`: the file leaves its source path and appears at the
destination. -/
def moveFile (fs : List Path) (src dst : Path) : List Path :=
  fs.erase src ++ [dst]

/-- Processing of one walked file (lines 212-241).  The codec runs before
the dedup check, mirroring the source order: extension filter, encode,
truthiness test (`None` and the empty string are both falsy), dedup
check against the snapshot, extractor, then move-and-insert where a
`KeyError` from the insert is caught and only logged. -/
def processFile (env : Env) (st : PState) (f : FileEntry) : PState :=
  if isImageFile f.name then
    match env.encode (uploadsPath f) with
    | none => { st with encodeCalls := st.encodeCalls ++ [uploadsPath f] }
    | some enc =>
      if enc = "" then
        { st with encodeCalls := st.encodeCalls ++ [uploadsPath f] }
      else if destPath env.ts f ∈ st.dedupSet then
        { st with encodeCalls := st.encodeCalls ++ [uploadsPath f] }
      else if env.analyze enc = [] then
        { st with encodeCalls := st.encodeCalls ++ [uploadsPath f],
                  analyzeCalls := st.analyzeCalls ++ [uploadsPath f] }
      else
        { st with
            encodeCalls := st.encodeCalls ++ [uploadsPath f],
            analyzeCalls := st.analyzeCalls ++ [uploadsPath f],
            fs := moveFile st.fs (uploadsPath f) (destPath env.ts f),
            records := st.records ++
              rowsOf (insert_product_info env.storeOk (env.analyze enc)
                (destPath env.ts f)) }
  else st

/-- Image references present in the table (the `SELECT image_url` of
line 200). -/
def snapshotRefs (records : List Row) : List Path :=
  records.map fun r => r.image_url

/-- `process_uploaded_images` (lines 193-242): load the dedup snapshot
once, then fold the per-file processing over the walk. -/
def process_uploaded_images (env : Env) (walk : List FileEntry)
    (fs0 : List Path) (records0 : List Row) : PState :=
  walk.foldl (processFile env)
    { fs := fs0, records := records0, dedupSet := snapshotRefs records0,
      encodeCalls := [], analyzeCalls := [] }


/-! ### Rendered single-quoted responses (claim C9 machinery) -/

/-- A backend text fragment `q key q : space q value q`. -/
def renderPair (q : Char) (kv : List Char × List Char) : List Char :=
  q :: (kv.1 ++ (q :: ':' :: ' ' :: q :: (kv.2 ++ [q])))

def renderBody (q : Char) (ps : List (List Char × List Char)) : List Char :=
  pyJoin [',', ' '] (ps.map (renderPair q))

def renderObj (q : Char) (ps : List (List Char × List Char)) : List Char :=
  lb :: (renderBody q ps ++ [rb])

def fenced (body : List Char) : List Char :=
  fenceOpen ++ ('\n' :: (body ++ ('\n' :: [bq, bq, bq])))

def tenPairs (v1 v2 v3 v4 v5 v6 v7 v8 v9 v10 : List Char) :
    List (List Char × List Char) :=
  [("name".data, v1), ("description".data, v2), ("category".data, v3),
   ("material".data, v4), ("color".data, v5), ("dimensions".data, v6),
   ("origin_source".data, v7), ("import_cost".data, v8),
   ("retail_price".data, v9), ("key_tags".data, v10)]

abbrev safeStr (s : List Char) : Prop :=
  ∀ c ∈ s, c ≠ sq ∧ c ≠ dq ∧ c ≠ bs ∧ 32 ≤ c.toNat

/-- Separator shape condition: an occurrence of `sep` cannot start inside a
separator-free prefix and spill over the boundary into the separator that
follows it.  Both separators the source joins with satisfy it. -/
def boundaryOk (sep : List Char) : Prop :=
  ∀ c x r, occurs sep (c :: x) = false →
    sep.isPrefixOf (c :: (x ++ (sep ++ r))) = false

/-! ### Concrete instances used by claim witnesses and counterexamples -/

def c1GoodText : List Char :=
  pyJoin [] [[lb],
    "\"name\": \"n\", \"description\": \"d\", \"category\": \"c\", \"material\": \"m\", \"color\": \"co\", \"dimensions\": \"di\", \"origin_source\": \"o\", \"import_cost\": \"1\", \"retail_price\": \"2\", \"key_tags\": \"t\"".data,
    [rb]]

def c1GoodDict : Dict :=
  toDict [("name".data, "n".data), ("description".data, "d".data),
    ("category".data, "c".data), ("material".data, "m".data),
    ("color".data, "co".data), ("dimensions".data, "di".data),
    ("origin_source".data, "o".data), ("import_cost".data, "1".data),
    ("retail_price".data, "2".data), ("key_tags".data, "t".data)]

def c1Transient : Nat → BackendResp :=
  fun i => if i < 6 then .netFailure else .reply c1GoodText

def c2File : FileEntry := { rel := ["a"], name := "photo.jpg" }

def c2FileB : FileEntry := { rel := ["b"], name := "photo.jpg" }

def c2Env : Env :=
  { ts := "T", encode := fun _ => some "E",
    analyze := fun _ => requiredKeys.map fun k => (k, Value.str "v"), storeOk := true }

def c4File : FileEntry := { rel := ["a"], name := "x.png" }

def c4Env : Env :=
  { ts := "T", encode := fun _ => some "E", analyze := fun _ => [], storeOk := true }

def c4St : PState :=
  { fs := [uploadsPath c4File], records := [], dedupSet := [destPath "T" c4File],
    encodeCalls := [], analyzeCalls := [] }

def c5File : FileEntry := { rel := [], name := "y.jpg" }

def c5Env : Env :=
  { ts := "T", encode := fun _ => some "E",
    analyze := fun _ => requiredKeys.map fun k => (k, Value.str "v"), storeOk := true }

def c6File : FileEntry := { rel := [], name := "z.gif" }

def c6Env : Env :=
  { ts := "T", encode := fun _ => some "E",
    analyze := fun _ => [("name", Value.str "n")], storeOk := true }

def c6St : PState :=
  { fs := [uploadsPath c6File], records := [], dedupSet := [],
    encodeCalls := [], analyzeCalls := [] }

def c7Dict : Dict := requiredKeys.map fun k => (k, Value.str "v")

def c8File : FileEntry := { rel := [], name := "p.png" }

def c8Env1 : Env :=
  { ts := "T1", encode := fun _ => some "E",
    analyze := fun _ => requiredKeys.map fun k => (k, Value.str "v"), storeOk := true }

def c8Env2 : Env :=
  { ts := "T2", encode := fun _ => some "E",
    analyze := fun _ => requiredKeys.map fun k => (k, Value.str "v"), storeOk := true }

def c9Pairs : List (List Char × List Char) :=
  tenPairs "n".data "d".data "c".data "m".data "co".data "di".data
    "o".data "1".data "2".data "t".data

def c9PlainFenced : List Char :=
  [bq, bq, bq] ++ ('\n' :: (renderObj sq c9Pairs ++ ('\n' :: [bq, bq, bq])))

def c10File : FileEntry := { rel := [], name := "w.webp" }

def c10Env : Env :=
  { ts := "T", encode := fun _ => some "E", analyze := fun _ => [], storeOk := true }

def c10St : PState :=
  { fs := [uploadsPath c10File], records := [], dedupSet := [],
    encodeCalls := [], analyzeCalls := [] }

/-! ### Round-trip lemmas for Python join/split (claim C7 machinery) -/

theorem isPrefixOf_append_self (l t : List Char) : l.isPrefixOf (l ++ t) = true := by
  induction l with
  | nil => simp [List.isPrefixOf]
  | cons a as ih => simp [List.isPrefixOf, ih]

theorem findSep_none_of_not_occurs (sep : List Char) :
    ∀ s, occurs sep s = false → findSep sep s = none := by
  intro s
  induction s with
  | nil => intro _; rfl
  | cons c t ih =>
    intro h
    unfold occurs at h
    rw [Bool.or_eq_false_iff] at h
    unfold findSep
    rw [h.1, ih h.2]
    simp

theorem findSep_append (sep : List Char) (hs : sep ≠ []) (hb : boundaryOk sep) :
    ∀ x r, occurs sep x = false → findSep sep (x ++ (sep ++ r)) = some (x, r) := by
  intro x
  induction x with
  | nil =>
    intro r _
    cases sep with
    | nil => exact absurd rfl hs
    | cons a as =>
      show findSep (a :: as) (a :: (as ++ r)) = some ([], r)
      rw [findSep]
      rw [show (a :: as).isPrefixOf (a :: (as ++ r)) = true from isPrefixOf_append_self (a :: as) r]
      simp only [eq_self_iff_true, if_true]
      rw [show a :: (as ++ r) = (a :: as) ++ r from (List.cons_append a as r).symm,
        List.drop_left]
  | cons c x ih =>
    intro r h
    have h2 : occurs sep x = false := by
      unfold occurs at h
      rw [Bool.or_eq_false_iff] at h
      exact h.2
    have h1 : sep.isPrefixOf (c :: (x ++ (sep ++ r))) = false := hb c x r h
    show findSep sep (c :: (x ++ (sep ++ r))) = some (c :: x, r)
    unfold findSep
    rw [h1, ih r h2]
    simp

theorem pySplitFuel_join (sep : List Char) (hs : sep ≠ []) (hb : boundaryOk sep) :
    ∀ (xs : List (List Char)) (fuel : Nat), xs ≠ [] →
      (∀ x ∈ xs, occurs sep x = false) → xs.length ≤ fuel + 1 →
      pySplitFuel sep fuel (pyJoin sep xs) = xs := by
  intro xs
  induction xs with
  | nil => intro fuel h _ _; exact absurd rfl h
  | cons x ys ih =>
    intro fuel _ hfree hlen
    cases ys with
    | nil =>
      show pySplitFuel sep fuel x = [x]
      cases fuel with
      | zero => rfl
      | succ n =>
        unfold pySplitFuel
        rw [findSep_none_of_not_occurs sep x (hfree x (by simp))]
    | cons y zs =>
      cases fuel with
      | zero => simp at hlen
      | succ n =>
        show pySplitFuel sep (n + 1) (pyJoin sep (x :: y :: zs)) = x :: y :: zs
        rw [show pyJoin sep (x :: y :: zs) = x ++ (sep ++ pyJoin sep (y :: zs)) by
          rw [pyJoin, List.append_assoc]]
        unfold pySplitFuel
        rw [findSep_append sep hs hb x (pyJoin sep (y :: zs)) (hfree x (by simp))]
        have := ih n (by simp) (fun a ha => hfree a (by simp [ha])) (by simp at hlen ⊢; omega)
        simp [this]

theorem pyJoin_length_ge (sep : List Char) (hs : sep ≠ []) :
    ∀ xs : List (List Char), xs.length ≤ (pyJoin sep xs).length + 1 := by
  intro xs
  induction xs with
  | nil => simp [pyJoin]
  | cons x ys ih =>
    cases ys with
    | nil => simp [pyJoin]
    | cons y zs =>
      have h1 : 1 ≤ sep.length := by
        cases sep with
        | nil => exact absurd rfl hs
        | cons a as => simp
      rw [pyJoin]
      simp only [List.length_append, List.length_cons] at ih ⊢
      omega

theorem pySplit_pyJoin (sep : List Char) (hs : sep ≠ []) (hb : boundaryOk sep)
    (xs : List (List Char)) (hne : xs ≠ [])
    (hfree : ∀ x ∈ xs, occurs sep x = false) :
    pySplit sep (pyJoin sep xs) = xs := by
  unfold pySplit
  exact pySplitFuel_join sep hs hb xs _ hne hfree
    (le_trans (pyJoin_length_ge sep hs xs) (by omega))

theorem boundaryOk_single (c0 : Char) : boundaryOk [c0] := by
  intro c x r h
  unfold occurs at h
  rw [Bool.or_eq_false_iff] at h
  have h1 := h.1
  simp [List.isPrefixOf] at h1 ⊢
  exact h1

theorem boundaryOk_commaSpace : boundaryOk [',', ' '] := by
  intro c x r h
  unfold occurs at h
  rw [Bool.or_eq_false_iff] at h
  have h1 := h.1
  cases x with
  | nil => simp [List.isPrefixOf]
  | cons b x2 =>
    simp [List.isPrefixOf] at h1 ⊢
    intro hc hb2
    exact h1 hc hb2

theorem mk_data (s : String) : String.mk s.data = s := rfl

theorem splitS_joinS (sep : String) (hs : sep.data ≠ []) (hb : boundaryOk sep.data)
    (xs : List String) (hne : xs ≠ [])
    (hfree : ∀ x ∈ xs, occurs sep.data x.data = false) :
    splitS sep (joinS sep xs) = xs := by
  unfold splitS joinS
  rw [show (String.mk (pyJoin sep.data (xs.map String.data))).data
      = pyJoin sep.data (xs.map String.data) from rfl]
  rw [pySplit_pyJoin sep.data hs hb _ (by simpa using hne)
      (by intro y hy; rw [List.mem_map] at hy; obtain ⟨x, hx, rfl⟩ := hy; exact hfree x hx)]
  rw [List.map_map]
  exact List.map_id'' (fun s => rfl) xs


/-! ### Per-file behavior of the pipeline step -/

theorem processFile_not_image (env : Env) (st : PState) (f : FileEntry)
    (h : isImageFile f.name = false) : processFile env st f = st := by
  simp [processFile, h]

theorem processFile_encode_none (env : Env) (st : PState) (f : FileEntry)
    (h1 : isImageFile f.name = true) (h2 : env.encode (uploadsPath f) = none) :
    processFile env st f = { st with encodeCalls := st.encodeCalls ++ [uploadsPath f] } := by
  simp [processFile, h1, h2]

theorem processFile_dup (env : Env) (st : PState) (f : FileEntry) (enc : String)
    (h1 : isImageFile f.name = true) (h2 : env.encode (uploadsPath f) = some enc)
    (h3 : enc ≠ "") (h4 : destPath env.ts f ∈ st.dedupSet) :
    processFile env st f = { st with encodeCalls := st.encodeCalls ++ [uploadsPath f] } := by
  simp [processFile, h1, h2, h3, h4]

theorem processFile_analyze_empty (env : Env) (st : PState) (f : FileEntry) (enc : String)
    (h1 : isImageFile f.name = true) (h2 : env.encode (uploadsPath f) = some enc)
    (h3 : enc ≠ "") (h4 : destPath env.ts f ∉ st.dedupSet)
    (h5 : env.analyze enc = []) :
    processFile env st f = { st with encodeCalls := st.encodeCalls ++ [uploadsPath f],
                                     analyzeCalls := st.analyzeCalls ++ [uploadsPath f] } := by
  simp [processFile, h1, h2, h3, h4, h5]

theorem processFile_proceed (env : Env) (st : PState) (f : FileEntry) (enc : String)
    (h1 : isImageFile f.name = true) (h2 : env.encode (uploadsPath f) = some enc)
    (h3 : enc ≠ "") (h4 : destPath env.ts f ∉ st.dedupSet)
    (h5 : env.analyze enc ≠ []) :
    processFile env st f = { st with
      encodeCalls := st.encodeCalls ++ [uploadsPath f],
      analyzeCalls := st.analyzeCalls ++ [uploadsPath f],
      fs := moveFile st.fs (uploadsPath f) (destPath env.ts f),
      records := st.records ++
        rowsOf (insert_product_info env.storeOk (env.analyze enc) (destPath env.ts f)) } := by
  simp [processFile, h1, h2, h3, h4, h5]

theorem rowsOf_url (so : Bool) (d : Dict) (p : Path) (r : Row)
    (h : r ∈ rowsOf (insert_product_info so d p)) : r.image_url = p := by
  unfold insert_product_info at h
  rcases hfm : firstMissing d with _ | k
  · rw [hfm] at h
    by_cases hso : so
    · simp [hso, rowsOf] at h
      subst h
      rfl
    · simp [hso, rowsOf] at h
  · rw [hfm] at h
    simp [rowsOf] at h

theorem processFile_dedupSet (env : Env) (st : PState) (f : FileEntry) :
    (processFile env st f).dedupSet = st.dedupSet := by
  unfold processFile
  (repeat' split) <;> rfl

theorem processFile_records_shape (env : Env) (st : PState) (f : FileEntry) :
    ∃ tail, (processFile env st f).records = st.records ++ tail
      ∧ ∀ r ∈ tail, r.image_url = destPath env.ts f := by
  unfold processFile
  (repeat' split) <;>
    first
      | exact ⟨_, rfl, fun r hr => rowsOf_url _ _ _ r hr⟩
      | exact ⟨[], by simp, by simp⟩

theorem processFile_fs_shape (env : Env) (st : PState) (f : FileEntry) :
    (processFile env st f).fs = st.fs
      ∨ (processFile env st f).fs = moveFile st.fs (uploadsPath f) (destPath env.ts f) := by
  unfold processFile
  (repeat' split) <;> simp

theorem foldl_inv {σ α : Type _} (step : σ → α → σ) (P : σ → Prop) :
    ∀ (l : List α) (s : σ), P s → (∀ t a, a ∈ l → P t → P (step t a)) →
      P (l.foldl step s) := by
  intro l
  induction l with
  | nil => intro s h _; exact h
  | cons a as ih =>
    intro s h hstep
    exact ih (step s a) (hstep s a (by simp) h)
      fun t b hb hp => hstep t b (by simp [hb]) hp

theorem destPath_inj {ts : String} {f g : FileEntry}
    (h : destPath ts f = destPath ts g) : f = g := by
  unfold destPath at h
  obtain ⟨h1, h2⟩ := List.append_inj' h (by simp)
  have h3 := List.append_cancel_left h1
  cases f; cases g
  simp_all

theorem uploadsPath_inj {f g : FileEntry}
    (h : uploadsPath f = uploadsPath g) : f = g := by
  unfold uploadsPath at h
  obtain ⟨h1, h2⟩ := List.append_inj' h (by simp)
  have h3 := List.append_cancel_left h1
  cases f; cases g
  simp_all

theorem uploadsPath_ne_destPath (g : FileEntry) (ts : String) (f : FileEntry) :
    uploadsPath g ≠ destPath ts f := by
  intro h
  have h3 : (uploadsPath g).take 3 = (destPath ts f).take 3 := by rw [h]
  have hl : (uploadsPath g).take 3 = UPLOADS_DIR := rfl
  have hr : (destPath ts f).take 3 = INVENTORY_IMAGES_DIR := rfl
  rw [hl, hr] at h3
  simp [UPLOADS_DIR, INVENTORY_IMAGES_DIR] at h3


/-! ### Run-level lemmas -/

theorem analyze_ne_nil_of_firstMissing_none {d : Dict}
    (h : firstMissing d = none) : d ≠ [] := by
  intro he
  subst he
  unfold firstMissing requiredKeys at h
  simp [List.find?] at h

theorem countP_tail_zero (env : Env) (f g : FileEntry) (hgf : g ≠ f)
    (tail : List Row) (hurl : ∀ r ∈ tail, r.image_url = destPath env.ts g) :
    tail.countP (fun r => decide (r.image_url = destPath env.ts f)) = 0 := by
  rw [List.countP_eq_zero]
  intro r hr
  simp only [decide_eq_true_eq]
  rw [hurl r hr]
  intro h
  exact hgf (destPath_inj h)

theorem count_singleton_ne {a b : Path} (h : a ≠ b) : List.count a [b] = 0 := by
  simp [List.count_cons]
  exact fun e => h e.symm

/-- Core fold lemma: a walked file whose whole per-file pass succeeds ends
up with exactly one new record keyed by its destination, its source path
gone from the filesystem and its destination present. -/
theorem fold_processed_core
    (env : Env) (l1 l2 : List FileEntry) (st0 : PState)
    (f : FileEntry) (enc : String)
    (hf1 : f ∉ l1) (hf2 : f ∉ l2)
    (helig : isImageFile f.name = true)
    (henc : env.encode (uploadsPath f) = some enc) (hne : enc ≠ "")
    (hfull : firstMissing (env.analyze enc) = none)
    (hstore : env.storeOk = true)
    (hdst : destPath env.ts f ∉ st0.dedupSet)
    (hcnt : List.count (uploadsPath f) st0.fs ≤ 1) :
    (List.foldl (processFile env) st0 (l1 ++ f :: l2)).records.countP
        (fun r => decide (r.image_url = destPath env.ts f))
      = st0.records.countP (fun r => decide (r.image_url = destPath env.ts f)) + 1
    ∧ uploadsPath f ∉ (List.foldl (processFile env) st0 (l1 ++ f :: l2)).fs
    ∧ destPath env.ts f ∈ (List.foldl (processFile env) st0 (l1 ++ f :: l2)).fs := by
  rw [List.foldl_append, List.foldl_cons]
  set pdst : Row → Bool := fun r => decide (r.image_url = destPath env.ts f) with hpdst
  have hphase1 :
      (List.foldl (processFile env) st0 l1).dedupSet = st0.dedupSet
      ∧ (List.foldl (processFile env) st0 l1).records.countP pdst = st0.records.countP pdst
      ∧ List.count (uploadsPath f) (List.foldl (processFile env) st0 l1).fs ≤ 1 := by
    apply foldl_inv (processFile env)
      (fun st => st.dedupSet = st0.dedupSet
        ∧ st.records.countP pdst = st0.records.countP pdst
        ∧ List.count (uploadsPath f) st.fs ≤ 1)
    · exact ⟨rfl, rfl, hcnt⟩
    · intro t g hg hP
      obtain ⟨ha, hb, hc⟩ := hP
      have hgf : g ≠ f := fun e => hf1 (e ▸ hg)
      refine ⟨?_, ?_, ?_⟩
      · rw [processFile_dedupSet]; exact ha
      · obtain ⟨tail, he, hurl⟩ := processFile_records_shape env t g
        rw [he, List.countP_append, hb, countP_tail_zero env f g hgf tail hurl]
        omega
      · obtain hfs | hfs := processFile_fs_shape env t g
        · rw [hfs]; exact hc
        · rw [hfs]
          unfold moveFile
          rw [List.count_append,
            List.count_erase_of_ne (fun e => hgf (uploadsPath_inj e.symm)) t.fs,
            count_singleton_ne (uploadsPath_ne_destPath f env.ts g)]
          omega
  obtain ⟨ha, hb, hc⟩ := hphase1
  set stm := List.foldl (processFile env) st0 l1 with hstm
  have hdm : destPath env.ts f ∉ stm.dedupSet := by rw [ha]; exact hdst
  have hana : env.analyze enc ≠ [] := analyze_ne_nil_of_firstMissing_none hfull
  have hins : insert_product_info env.storeOk (env.analyze enc) (destPath env.ts f)
      = .inserted (mkRow (env.analyze enc) (destPath env.ts f)) := by
    unfold insert_product_info
    rw [hfull, hstore]
    simp
  have hstep := processFile_proceed env stm f enc helig henc hne hdm hana
  rw [hins] at hstep
  have hrec1 : (processFile env stm f).records.countP pdst = st0.records.countP pdst + 1 := by
    rw [hstep]
    show (stm.records ++ rowsOf _).countP pdst = _
    rw [List.countP_append, hb]
    simp [hpdst, rowsOf, List.countP_cons, mkRow]
  have hsrc1 : uploadsPath f ∉ (processFile env stm f).fs := by
    rw [hstep]
    show uploadsPath f ∉ moveFile stm.fs (uploadsPath f) (destPath env.ts f)
    unfold moveFile
    rw [← List.count_eq_zero, List.count_append, List.count_erase_self,
      count_singleton_ne (uploadsPath_ne_destPath f env.ts f)]
    omega
  have hdst1 : destPath env.ts f ∈ (processFile env stm f).fs := by
    rw [hstep]
    show destPath env.ts f ∈ moveFile stm.fs (uploadsPath f) (destPath env.ts f)
    unfold moveFile
    simp
  apply foldl_inv (processFile env)
    (fun st => st.records.countP pdst = st0.records.countP pdst + 1
      ∧ uploadsPath f ∉ st.fs ∧ destPath env.ts f ∈ st.fs)
  · exact ⟨hrec1, hsrc1, hdst1⟩
  · intro t g hg hP
    obtain ⟨hb2, hs2, hd2⟩ := hP
    have hgf : g ≠ f := fun e => hf2 (e ▸ hg)
    refine ⟨?_, ?_, ?_⟩
    · obtain ⟨tail, he, hurl⟩ := processFile_records_shape env t g
      rw [he, List.countP_append, hb2, countP_tail_zero env f g hgf tail hurl]
    · obtain hfs | hfs := processFile_fs_shape env t g
      · rw [hfs]; exact hs2
      · rw [hfs]
        unfold moveFile
        rw [List.mem_append]
        rintro (hin | hin)
        · exact hs2 (List.mem_of_mem_erase hin)
        · rw [List.mem_singleton] at hin
          exact uploadsPath_ne_destPath f env.ts g hin
    · obtain hfs | hfs := processFile_fs_shape env t g
      · rw [hfs]; exact hd2
      · rw [hfs]
        unfold moveFile
        rw [List.mem_append]
        left
        rw [List.mem_erase_of_ne fun e => uploadsPath_ne_destPath g env.ts f e.symm]
        exact hd2

theorem uploadsPath_take3 (g : FileEntry) : (uploadsPath g).take 3 = UPLOADS_DIR := rfl

theorem destPath_take3 (ts : String) (g : FileEntry) :
    (destPath ts g).take 3 = INVENTORY_IMAGES_DIR := rfl

theorem fold_fs_no_new_uploads (env : Env) (walk : List FileEntry) (st0 : PState) :
    ∀ p ∈ (List.foldl (processFile env) st0 walk).fs, p.take 3 = UPLOADS_DIR → p ∈ st0.fs := by
  apply foldl_inv (processFile env)
    (fun st => ∀ p ∈ st.fs, p.take 3 = UPLOADS_DIR → p ∈ st0.fs)
  · exact fun p hp _ => hp
  · intro t g _ hP p hp hu
    obtain hfs | hfs := processFile_fs_shape env t g
    · rw [hfs] at hp
      exact hP p hp hu
    · rw [hfs] at hp
      unfold moveFile at hp
      rw [List.mem_append] at hp
      rcases hp with hp | hp
      · exact hP p (List.mem_of_mem_erase hp) hu
      · rw [List.mem_singleton] at hp
        subst hp
        rw [destPath_take3] at hu
        simp [UPLOADS_DIR, INVENTORY_IMAGES_DIR] at hu

theorem count_le_one_of_nodup {l : List Path} (h : l.Nodup) (p : Path) :
    List.count p l ≤ 1 := by
  induction l with
  | nil => simp
  | cons a t ih =>
    rw [List.nodup_cons] at h
    rw [List.count_cons]
    by_cases hpa : a = p
    · subst hpa
      have hz : List.count a t = 0 := List.count_eq_zero.mpr h.1
      simp [hz]
    · have hb : (a == p) = false := by
        rw [beq_eq_false_iff_ne]
        exact hpa
      rw [hb]
      have := ih h.2
      simp
      omega

theorem count_le_one_of_nodup_map (walk : List FileEntry) (hnd : walk.Nodup)
    (p : Path) : List.count p (walk.map uploadsPath) ≤ 1 :=
  count_le_one_of_nodup (List.Nodup.map (fun _ _ h => uploadsPath_inj h) hnd) p

theorem mem_split_nodup {f : FileEntry} {walk : List FileEntry}
    (hmem : f ∈ walk) (hnd : walk.Nodup) :
    ∃ l1 l2, walk = l1 ++ f :: l2 ∧ f ∉ l1 ∧ f ∉ l2 := by
  obtain ⟨l1, l2, rfl⟩ := List.append_of_mem hmem
  rw [List.nodup_append] at hnd
  obtain ⟨h1, h2, h3⟩ := hnd
  rw [List.nodup_cons] at h2
  exact ⟨l1, l2, rfl, fun hin => h3 hin (List.mem_cons_self f l2), h2.1⟩

theorem snapshot_countP_zero (records0 : List Row) (q : Path)
    (hq : q ∉ snapshotRefs records0) :
    records0.countP (fun r => decide (r.image_url = q)) = 0 := by
  rw [List.countP_eq_zero]
  intro r hr
  simp only [decide_eq_true_eq]
  intro h
  exact hq (List.mem_map.mpr ⟨r, hr, h⟩)

/-! ### Parser correctness on rendered objects (claim C9 machinery) -/

theorem pyStrip_eq_self (s : List Char)
    (h1 : ∃ a t, s = a :: t ∧ wsChar a = false)
    (h2 : ∃ b t2, s = t2 ++ [b] ∧ wsChar b = false) :
    pyStrip s = s := by
  obtain ⟨a, t, rfl, ha⟩ := h1
  obtain ⟨b, t2, he, hb⟩ := h2
  unfold pyStrip
  rw [List.dropWhile_cons, ha]
  simp only [Bool.false_eq_true, if_false]
  rw [he, List.reverse_append]
  simp only [List.reverse_cons, List.reverse_nil, List.nil_append, List.singleton_append]
  rw [List.dropWhile_cons, hb]
  simp

theorem dropThroughFirstNl_append (pre post : List Char) (h : '\n' ∉ pre) :
    dropThroughFirstNl (pre ++ '\n' :: post) = some post := by
  induction pre with
  | nil => simp [dropThroughFirstNl]
  | cons c t ih =>
    rw [List.cons_append]
    unfold dropThroughFirstNl
    have hcn : ¬(c = '\n') := by
      intro hc
      subst hc
      exact h (List.mem_cons_self _ _)
    rw [if_neg hcn]
    exact ih fun hm => h (List.mem_cons_of_mem c hm)

theorem dropAfterLastNl_append (A B : List Char) (hB : '\n' ∉ B) :
    dropAfterLastNl (A ++ '\n' :: B) = A := by
  unfold dropAfterLastNl
  have he : (A ++ '\n' :: B).reverse = B.reverse ++ '\n' :: A.reverse := by
    rw [List.reverse_append, List.reverse_cons]
    simp [List.append_assoc]
  rw [he, dropThroughFirstNl_append B.reverse A.reverse
    (fun hm => hB (List.mem_reverse.mp hm))]
  simp

theorem mem_pyJoin {c : Char} (sep : List Char) :
    ∀ xs, c ∈ pyJoin sep xs → c ∈ sep ∨ ∃ x ∈ xs, c ∈ x := by
  intro xs
  induction xs with
  | nil => intro h; simp [pyJoin] at h
  | cons x ys ih =>
    cases ys with
    | nil =>
      intro h
      exact Or.inr ⟨x, by simp, h⟩
    | cons y zs =>
      intro h
      rw [pyJoin] at h
      rw [List.mem_append, List.mem_append] at h
      rcases h with (h | h) | h
      · exact Or.inr ⟨x, by simp, h⟩
      · exact Or.inl h
      · rcases ih h with h | ⟨x2, hx2, hc⟩
        · exact Or.inl h
        · exact Or.inr ⟨x2, by simp [hx2], hc⟩

theorem nl_not_mem_renderObj (q : Char) (hq : q ≠ '\n')
    (ps : List (List Char × List Char))
    (h : ∀ kv ∈ ps, '\n' ∉ kv.1 ∧ '\n' ∉ kv.2) :
    '\n' ∉ renderObj q ps := by
  intro hmem
  unfold renderObj at hmem
  rw [List.mem_cons, List.mem_append] at hmem
  rcases hmem with hmem | hmem | hmem
  · exact absurd hmem.symm (by decide)
  · rcases mem_pyJoin [',', ' '] (ps.map (renderPair q)) hmem with hc | ⟨x, hx, hc⟩
    · simp at hc
    · rw [List.mem_map] at hx
      obtain ⟨kv, hkv, rfl⟩ := hx
      unfold renderPair at hc
      rw [List.mem_cons, List.mem_append] at hc
      rcases hc with hc | hc | hc
      · exact hq hc.symm
      · exact (h kv hkv).1 hc
      · rw [List.mem_cons] at hc
        rcases hc with hc | hc
        · exact hq hc.symm
        · rw [List.mem_cons] at hc
          rcases hc with hc | hc
          · exact absurd hc (by decide)
          · rw [List.mem_cons] at hc
            rcases hc with hc | hc
            · exact absurd hc (by decide)
            · rw [List.mem_cons] at hc
              rcases hc with hc | hc
              · exact hq hc.symm
              · rw [List.mem_append] at hc
                rcases hc with hc | hc
                · exact (h kv hkv).2 hc
                · rw [List.mem_singleton] at hc
                  exact hq hc.symm
  · rw [List.mem_singleton] at hmem
    exact absurd hmem (by decide)

/-! replace lemmas -/

theorem pyReplace_append (a b : Char) (x y : List Char) :
    pyReplace a b (x ++ y) = pyReplace a b x ++ pyReplace a b y := by
  unfold pyReplace
  rw [List.map_append]

theorem pyReplace_of_not_mem {a : Char} (b : Char) {s : List Char} (h : a ∉ s) :
    pyReplace a b s = s := by
  unfold pyReplace
  induction s with
  | nil => rfl
  | cons c t ih =>
    rw [List.map_cons]
    have hca : ¬(c = a) := fun hc => h (hc ▸ List.mem_cons_self c t)
    rw [if_neg hca, ih fun hm => h (List.mem_cons_of_mem c hm)]

theorem pyReplace_pyJoin (a b : Char) (sep : List Char) :
    ∀ xs, pyReplace a b (pyJoin sep xs)
      = pyJoin (pyReplace a b sep) (xs.map (pyReplace a b)) := by
  intro xs
  induction xs with
  | nil => rfl
  | cons x ys ih =>
    cases ys with
    | nil => rfl
    | cons y zs =>
      rw [pyJoin, List.map_cons]
      rw [show pyJoin (pyReplace a b sep)
          (pyReplace a b x :: List.map (pyReplace a b) (y :: zs))
          = pyReplace a b x ++ pyReplace a b sep
            ++ pyJoin (pyReplace a b sep) (List.map (pyReplace a b) (y :: zs)) by
        rw [List.map_cons, pyJoin]]
      rw [pyReplace_append, pyReplace_append, ih]

theorem pyReplace_renderPair (kv : List Char × List Char)
    (hk : sq ∉ kv.1) (hv : sq ∉ kv.2) :
    pyReplace sq dq (renderPair sq kv) = renderPair dq kv := by
  unfold renderPair pyReplace
  rw [List.map_cons, List.map_append, List.map_cons, List.map_cons, List.map_cons,
    List.map_cons, List.map_append, List.map_cons, List.map_nil]
  rw [if_pos rfl]
  rw [show (if ':' = sq then dq else ':') = ':' by decide]
  rw [show (if ' ' = sq then dq else ' ') = ' ' by decide]
  have h1 : List.map (fun c => if c = sq then dq else c) kv.1 = kv.1 :=
    pyReplace_of_not_mem dq hk
  have h2 : List.map (fun c => if c = sq then dq else c) kv.2 = kv.2 :=
    pyReplace_of_not_mem dq hv
  rw [h1, h2]

theorem pyReplace_renderObj (ps : List (List Char × List Char))
    (h : ∀ kv ∈ ps, sq ∉ kv.1 ∧ sq ∉ kv.2) :
    pyReplace sq dq (renderObj sq ps) = renderObj dq ps := by
  unfold renderObj renderBody pyReplace
  rw [List.map_cons]
  rw [show (if lb = sq then dq else lb) = lb by decide]
  rw [List.map_append, List.map_cons, List.map_nil]
  rw [show (if rb = sq then dq else rb) = rb by decide]
  rw [show List.map (fun c => if c = sq then dq else c)
      (pyJoin [',', ' '] (List.map (renderPair sq) ps))
      = pyReplace sq dq (pyJoin [',', ' '] (List.map (renderPair sq) ps)) from rfl]
  rw [pyReplace_pyJoin]
  rw [show pyReplace sq dq [',', ' '] = [',', ' '] by decide]
  have hmap : List.map (pyReplace sq dq ∘ renderPair sq) ps
      = List.map (renderPair dq) ps := by
    apply List.map_congr_left
    intro kv hkv
    exact pyReplace_renderPair kv (h kv hkv).1 (h kv hkv).2
  rw [List.map_map, hmap]

/-! parser correctness on rendered objects -/

theorem skipWs_not_ws {c : Char} (t : List Char) (h : wsChar c = false) :
    skipWs (c :: t) = c :: t := by
  simp [skipWs, h]

theorem skipWs_space (t : List Char) : skipWs (' ' :: t) = skipWs t := by
  simp [skipWs, show wsChar ' ' = true from rfl]

theorem skipWs_dq_head (y : List Char) : skipWs (dq :: y) = dq :: y :=
  skipWs_not_ws y rfl

theorem parseStringBody_append (k rest : List Char)
    (hdq : dq ∉ k) (hbs : bs ∉ k) (hctl : ∀ c ∈ k, 32 ≤ c.toNat) :
    parseStringBody (k ++ dq :: rest) = some (k, rest) := by
  induction k with
  | nil =>
    show parseStringBody (dq :: rest) = some ([], rest)
    simp [parseStringBody]
  | cons c t ih =>
    show parseStringBody (c :: (t ++ dq :: rest)) = some (c :: t, rest)
    unfold parseStringBody
    have hc1 : ¬(c = dq) := fun hc => hdq (hc ▸ List.mem_cons_self c t)
    have hc2 : ¬(c = bs) := fun hc => hbs (hc ▸ List.mem_cons_self c t)
    have hc3 : ¬(c.toNat < 32) := by
      have := hctl c (List.mem_cons_self c t)
      omega
    rw [if_neg hc1, if_neg hc2, if_neg hc3,
      ih (fun hm => hdq (List.mem_cons_of_mem c hm))
        (fun hm => hbs (List.mem_cons_of_mem c hm))
        (fun a hm => hctl a (List.mem_cons_of_mem c hm))]

theorem parsePair_render (kv : List Char × List Char) (rest : List Char)
    (hk : dq ∉ kv.1 ∧ bs ∉ kv.1 ∧ ∀ c ∈ kv.1, 32 ≤ c.toNat)
    (hv : dq ∉ kv.2 ∧ bs ∉ kv.2 ∧ ∀ c ∈ kv.2, 32 ≤ c.toNat) :
    parsePair (renderPair dq kv ++ rest) = some (kv, rest) := by
  have hE : renderPair dq kv ++ rest
      = dq :: (kv.1 ++ (dq :: ':' :: ' ' :: dq :: (kv.2 ++ (dq :: rest)))) := by
    simp [renderPair, List.append_assoc]
  rw [hE]
  unfold parsePair
  dsimp only
  rw [if_pos rfl]
  rw [parseStringBody_append kv.1 (':' :: ' ' :: dq :: (kv.2 ++ (dq :: rest)))
    hk.1 hk.2.1 hk.2.2]
  dsimp only
  rw [skipWs_not_ws _ (show wsChar ':' = false from rfl)]
  dsimp only
  rw [if_pos rfl]
  rw [skipWs_space, skipWs_dq_head]
  dsimp only
  rw [if_pos rfl]
  rw [parseStringBody_append kv.2 rest hv.1 hv.2.1 hv.2.2]

theorem skipWs_renderBody (p : List Char × List Char)
    (l : List (List Char × List Char)) (X : List Char) :
    skipWs (renderBody dq (p :: l) ++ X) = renderBody dq (p :: l) ++ X := by
  cases l with
  | nil => exact skipWs_dq_head _
  | cons y zs => exact skipWs_dq_head _

theorem parsePairs_render :
    ∀ (ps : List (List Char × List Char)) (fuel : Nat), ps ≠ [] →
      (∀ kv ∈ ps, (dq ∉ kv.1 ∧ bs ∉ kv.1 ∧ ∀ c ∈ kv.1, 32 ≤ c.toNat)
        ∧ (dq ∉ kv.2 ∧ bs ∉ kv.2 ∧ ∀ c ∈ kv.2, 32 ≤ c.toNat)) →
      ps.length ≤ fuel →
      parsePairs fuel (renderBody dq ps ++ [rb]) = some (ps, [rb]) := by
  intro ps
  induction ps with
  | nil => intro fuel h _ _; exact absurd rfl h
  | cons p l ih =>
    intro fuel _ hsafe hlen
    cases fuel with
    | zero => simp at hlen
    | succ m =>
      cases l with
      | nil =>
        show parsePairs (m + 1) (renderPair dq p ++ [rb]) = some ([p], [rb])
        unfold parsePairs
        rw [parsePair_render p [rb] (hsafe p (by simp)).1 (hsafe p (by simp)).2]
        dsimp only
        rw [skipWs_not_ws _ (show wsChar rb = false from rfl)]
        dsimp only
        rw [if_neg (show ¬(rb = ',') by decide)]
      | cons p2 l2 =>
        have hE : renderBody dq (p :: p2 :: l2) ++ [rb]
            = renderPair dq p ++ (',' :: ' ' :: (renderBody dq (p2 :: l2) ++ [rb])) := by
          simp [renderBody, List.map_cons, pyJoin, List.append_assoc]
        rw [hE]
        unfold parsePairs
        rw [parsePair_render p _ (hsafe p (by simp)).1 (hsafe p (by simp)).2]
        dsimp only
        rw [skipWs_not_ws _ (show wsChar ',' = false from rfl)]
        dsimp only
        rw [if_pos rfl]
        rw [skipWs_space, skipWs_renderBody]
        rw [ih m (by simp) (fun kv hkv => hsafe kv (by simp [hkv]))
          (by simp at hlen ⊢; omega)]

theorem parseObj_render (ps : List (List Char × List Char)) (hne : ps ≠ [])
    (hsafe : ∀ kv ∈ ps, (dq ∉ kv.1 ∧ bs ∉ kv.1 ∧ ∀ c ∈ kv.1, 32 ≤ c.toNat)
        ∧ (dq ∉ kv.2 ∧ bs ∉ kv.2 ∧ ∀ c ∈ kv.2, 32 ≤ c.toNat)) :
    parseObj (renderObj dq ps) = some ps := by
  cases ps with
  | nil => exact absurd rfl hne
  | cons p l =>
    have hlen : (p :: l).length ≤ (renderObj dq (p :: l)).length + 1 := by
      have h1 := pyJoin_length_ge [',', ' '] (by decide) ((p :: l).map (renderPair dq))
      rw [List.length_map] at h1
      have h2 : (renderObj dq (p :: l)).length
          = (renderBody dq (p :: l)).length + 2 := by
        simp [renderObj]
      unfold renderBody at h2
      omega
    obtain ⟨w, hwEq⟩ : ∃ w, renderBody dq (p :: l) ++ [rb] = dq :: w := by
      cases l with
      | nil => exact ⟨_, rfl⟩
      | cons a b => exact ⟨_, rfl⟩
    unfold parseObj
    rw [show skipWs (renderObj dq (p :: l))
        = lb :: (renderBody dq (p :: l) ++ [rb])
        from skipWs_not_ws (renderBody dq (p :: l) ++ [rb]) rfl]
    dsimp only
    rw [if_pos rfl]
    rw [show skipWs (renderBody dq (p :: l) ++ [rb])
        = renderBody dq (p :: l) ++ [rb] from skipWs_renderBody p l [rb]]
    rw [hwEq]
    dsimp only
    rw [if_neg (show ¬(dq = rb) by decide)]
    rw [← hwEq]
    rw [parsePairs_render (p :: l) ((renderObj dq (p :: l)).length + 1) (by simp)
      hsafe hlen]
    dsimp only
    rw [skipWs_not_ws _ (show wsChar rb = false from rfl)]
    dsimp only
    rw [if_pos ⟨rfl, rfl⟩]

theorem analyzeAttempt_fenced (ps : List (List Char × List Char)) (hne : ps ≠ [])
    (hsafe : ∀ kv ∈ ps, safeStr kv.1 ∧ safeStr kv.2) :
    analyzeAttempt (.reply (fenced (renderObj sq ps))) = .ok (toDict ps) := by
  have hnl : '\n' ∉ renderObj sq ps :=
    nl_not_mem_renderObj sq (by decide) ps fun kv hkv =>
      ⟨fun hm => absurd ((hsafe kv hkv).1 _ hm).2.2.2 (by decide),
       fun hm => absurd ((hsafe kv hkv).2 _ hm).2.2.2 (by decide)⟩
  have hsq : ∀ kv ∈ ps, sq ∉ kv.1 ∧ sq ∉ kv.2 := fun kv hkv =>
    ⟨fun hm => ((hsafe kv hkv).1 _ hm).1 rfl,
     fun hm => ((hsafe kv hkv).2 _ hm).1 rfl⟩
  have hqd : ∀ kv ∈ ps, (dq ∉ kv.1 ∧ bs ∉ kv.1 ∧ ∀ c ∈ kv.1, 32 ≤ c.toNat)
        ∧ (dq ∉ kv.2 ∧ bs ∉ kv.2 ∧ ∀ c ∈ kv.2, 32 ≤ c.toNat) :=
    fun kv hkv =>
      ⟨⟨fun hm => ((hsafe kv hkv).1 _ hm).2.1 rfl,
        fun hm => ((hsafe kv hkv).1 _ hm).2.2.1 rfl,
        fun c hm => ((hsafe kv hkv).1 c hm).2.2.2⟩,
       ⟨fun hm => ((hsafe kv hkv).2 _ hm).2.1 rfl,
        fun hm => ((hsafe kv hkv).2 _ hm).2.2.1 rfl,
        fun c hm => ((hsafe kv hkv).2 c hm).2.2.2⟩⟩
  have hstrip : pyStrip (fenced (renderObj sq ps)) = fenced (renderObj sq ps) :=
    pyStrip_eq_self _ ⟨bq, _, rfl, rfl⟩
      ⟨bq, fenceOpen ++ ('\n' :: (renderObj sq ps ++ ('\n' :: [bq, bq]))),
       by simp [fenced, List.append_assoc], rfl⟩
  unfold analyzeAttempt
  dsimp only
  rw [hstrip]
  unfold fenceStrip
  rw [if_pos (show fenceOpen.isPrefixOf (fenced (renderObj sq ps)) = true from
    isPrefixOf_append_self fenceOpen
      ('\n' :: (renderObj sq ps ++ ('\n' :: [bq, bq, bq]))))]
  rw [show dropThroughFirstNl (fenced (renderObj sq ps))
      = some (renderObj sq ps ++ ('\n' :: [bq, bq, bq])) from
    dropThroughFirstNl_append fenceOpen
      (renderObj sq ps ++ ('\n' :: [bq, bq, bq])) (by decide)]
  dsimp only [Option.map]
  rw [dropAfterLastNl_append (renderObj sq ps) [bq, bq, bq] (by decide)]
  rw [pyReplace_renderObj ps hsq]
  rw [parseObj_render ps hne hqd]

theorem analyzeAttempt_always_ok (resp : BackendResp) :
    ∃ d, analyzeAttempt resp = .ok d := by
  unfold analyzeAttempt
  cases resp with
  | netFailure => exact ⟨[], rfl⟩
  | reply t => (repeat' split) <;> exact ⟨_, rfl⟩

theorem analyze_image_first_attempt (backend : Nat → BackendResp) :
    analyze_image backend = analyzeAttempt (backend 1) := by
  obtain ⟨d, hd⟩ := analyzeAttempt_always_ok (backend 1)
  unfold analyze_image
  rw [show retryMaxAttempts - 1 = 5 from rfl]
  unfold retryStop
  rw [hd]

/-! ### Claim theorems -/

set_option maxRecDepth 8000 in
/-- Claim C1 (code bug): the decorator on `analyze_image` is configured for
6 attempts with randomized exponential backoff, but the function catches
every `requests` exception internally and returns an empty dict, so the
wrapper never observes a failure: a backend failing transiently on attempts
1-5 with a valid ten-field reply available on attempt 6 still produces an
empty extraction after the first attempt, while the retry combinator itself
would have reached attempt 6 had the exception propagated. -/
theorem c1_transient_failures_not_retried :
    analyze_image c1Transient = .ok []
    ∧ analyzeAttempt (.reply c1GoodText) = .ok c1GoodDict
    ∧ c1GoodDict ≠ []
    ∧ analyze_image (fun _ => .netFailure) = .ok []
    ∧ retryStop (fun i => if i < 6 then Except.error () else Except.ok c1GoodDict) 1
        (retryMaxAttempts - 1) = .ok c1GoodDict :=
  ⟨rfl, rfl, by decide, rfl, rfl⟩

/-- Claim C2: a walked file whose encode succeeds, whose extractor response
has all ten required fields, and whose destination is not in the dedup
snapshot ends the run with exactly one record keyed by its destination
(batch directory plus relative path plus filename), its source path gone
and its destination present; distinct walk entries always map to distinct
destinations. -/
theorem c2_success_one_record_and_moved
    (env : Env) (walk : List FileEntry) (fs0 : List Path) (records0 : List Row)
    (f : FileEntry) (enc : String)
    (hmem : f ∈ walk) (hnd : walk.Nodup)
    (helig : isImageFile f.name = true)
    (henc : env.encode (uploadsPath f) = some enc) (hne : enc ≠ "")
    (hfull : firstMissing (env.analyze enc) = none)
    (hstore : env.storeOk = true)
    (hdst : destPath env.ts f ∉ snapshotRefs records0)
    (hcnt : List.count (uploadsPath f) fs0 ≤ 1) :
    (process_uploaded_images env walk fs0 records0).records.countP
        (fun r => decide (r.image_url = destPath env.ts f)) = 1
    ∧ uploadsPath f ∉ (process_uploaded_images env walk fs0 records0).fs
    ∧ destPath env.ts f ∈ (process_uploaded_images env walk fs0 records0).fs
    ∧ ∀ g ∈ walk, g ≠ f → destPath env.ts g ≠ destPath env.ts f := by
  have hdistinct : ∀ g ∈ walk, g ≠ f → destPath env.ts g ≠ destPath env.ts f :=
    fun g _ hgf he => hgf (destPath_inj he)
  obtain ⟨l1, l2, hsplit, hf1, hf2⟩ := mem_split_nodup hmem hnd
  subst hsplit
  unfold process_uploaded_images
  have core := fold_processed_core env l1 l2
    { fs := fs0, records := records0, dedupSet := snapshotRefs records0,
      encodeCalls := [], analyzeCalls := [] }
    f enc hf1 hf2 helig henc hne hfull hstore hdst hcnt
  obtain ⟨h1, h2, h3⟩ := core
  refine ⟨?_, h2, h3, hdistinct⟩
  rw [h1]
  show records0.countP (fun r => decide (r.image_url = destPath env.ts f)) + 1 = 1
  rw [snapshot_countP_zero records0 (destPath env.ts f) hdst]

/-- Witness for claim C2 at a concrete two-file run with a shared filename
in two subdirectories. -/
theorem c2_witness :
    (c2File ∈ [c2File, c2FileB] ∧ [c2File, c2FileB].Nodup
      ∧ firstMissing (c2Env.analyze "E") = none
      ∧ destPath c2Env.ts c2File ∉ snapshotRefs [])
    ∧ ((process_uploaded_images c2Env [c2File, c2FileB]
          [uploadsPath c2File, uploadsPath c2FileB] []).records.countP
          (fun r => decide (r.image_url = destPath c2Env.ts c2File)) = 1
       ∧ uploadsPath c2File ∉ (process_uploaded_images c2Env [c2File, c2FileB]
          [uploadsPath c2File, uploadsPath c2FileB] []).fs
       ∧ destPath c2Env.ts c2File ∈ (process_uploaded_images c2Env [c2File, c2FileB]
          [uploadsPath c2File, uploadsPath c2FileB] []).fs
       ∧ ∀ g ∈ [c2File, c2FileB], g ≠ c2File →
          destPath c2Env.ts g ≠ destPath c2Env.ts c2File) :=
  ⟨⟨by decide, by decide, rfl, by decide⟩,
   c2_success_one_record_and_moved c2Env [c2File, c2FileB]
     [uploadsPath c2File, uploadsPath c2FileB] [] c2File "E"
     (by decide) (by decide) rfl rfl (by decide) rfl rfl (by decide) (by decide)⟩

/-- Claim C3: a record missing any one of the ten required keys makes
`insert_product_info` fail with a `KeyError` naming a missing field — an
outcome distinct from both a successful insert and a storage error — and
no row is added. -/
theorem c3_missing_field_rejected (so : Bool) (d : Dict) (p : Path) (k : String)
    (hk : k ∈ requiredKeys) (hmiss : List.lookup k d = none) :
    (∃ k2, insert_product_info so d p = .keyError k2)
    ∧ rowsOf (insert_product_info so d p) = []
    ∧ (∀ r, insert_product_info so d p ≠ .inserted r)
    ∧ insert_product_info so d p ≠ .storageError := by
  have hsome : (firstMissing d).isSome := by
    unfold firstMissing
    rw [List.find?_isSome]
    exact ⟨k, hk, by simp [hmiss]⟩
  obtain ⟨k2, hk2⟩ := Option.isSome_iff_exists.mp hsome
  unfold insert_product_info
  rw [hk2]
  exact ⟨⟨k2, rfl⟩, rfl, fun r h => InsertOutcome.noConfusion h,
    fun h => InsertOutcome.noConfusion h⟩

/-- Witness for claim C3 on a record containing only `name`. -/
theorem c3_witness :
    "description" ∈ requiredKeys
    ∧ List.lookup "description" [("name", Value.str "x")] = none
    ∧ ((∃ k2, insert_product_info true [("name", Value.str "x")] ["p"] = .keyError k2)
       ∧ rowsOf (insert_product_info true [("name", Value.str "x")] ["p"]) = []
       ∧ (∀ r, insert_product_info true [("name", Value.str "x")] ["p"] ≠ .inserted r)
       ∧ insert_product_info true [("name", Value.str "x")] ["p"] ≠ .storageError) :=
  ⟨by decide, rfl,
    c3_missing_field_rejected true [("name", Value.str "x")] ["p"] "description"
      (by decide) rfl⟩

-- ===== C4 =====

/-- Claim C4 (counterexample): for a file whose destination is already in
the dedup set, the Image Codec is nonetheless invoked — refuting the claim
that the dedup check precedes image encoding. -/
theorem c4_counterexample :
    isImageFile c4File.name = true
    ∧ destPath c4Env.ts c4File ∈ c4St.dedupSet
    ∧ (processFile c4Env c4St c4File).encodeCalls ≠ c4St.encodeCalls := by
  refine ⟨rfl, by decide, by decide⟩

/-- Claim C4 (amended): a file whose destination is in the dedup set is
skipped — left in place, no record, extractor not invoked — but the Image
Codec runs first: encoding precedes the dedup check in the source. -/
theorem c4_amended (env : Env) (st : PState) (f : FileEntry) (enc : String)
    (h1 : isImageFile f.name = true) (h2 : env.encode (uploadsPath f) = some enc)
    (h3 : enc ≠ "") (h4 : destPath env.ts f ∈ st.dedupSet) :
    processFile env st f = { st with encodeCalls := st.encodeCalls ++ [uploadsPath f] } :=
  processFile_dup env st f enc h1 h2 h3 h4

/-- Witness for the amended claim C4. -/
theorem c4_amended_witness :
    processFile c4Env c4St c4File
      = { c4St with encodeCalls := c4St.encodeCalls ++ [uploadsPath c4File] } :=
  c4_amended c4Env c4St c4File "E" rfl rfl (by decide) (by decide)

-- ===== C5 =====

/-- Claim C5 (counterexample): after a run inserts a record, the inserted
image reference is absent from the run state dedup set — refuting the
claim that mid-run insertions are added to the set. -/
theorem c5_counterexample :
    destPath c5Env.ts c5File
      ∈ snapshotRefs (process_uploaded_images c5Env [c5File] [uploadsPath c5File] []).records
    ∧ destPath c5Env.ts c5File
      ∉ (process_uploaded_images c5Env [c5File] [uploadsPath c5File] []).dedupSet := by
  constructor
  · decide
  · decide

/-- Claim C5 (amended): the dedup set is loaded once up front and never
modified during a run; no tracking of mid-run insertions exists, but no
destination can be processed twice in one run because distinct walk
entries yield distinct destination paths. -/
theorem c5_amended :
    (∀ (env : Env) (walk : List FileEntry) (fs0 : List Path) (records0 : List Row),
      (process_uploaded_images env walk fs0 records0).dedupSet = snapshotRefs records0)
    ∧ (∀ (ts : String) (f g : FileEntry), destPath ts f = destPath ts g → f = g) := by
  constructor
  · intro env walk fs0 records0
    unfold process_uploaded_images
    apply foldl_inv (processFile env) (fun st => st.dedupSet = snapshotRefs records0)
    · rfl
    · intro t g _ h
      rw [processFile_dedupSet]
      exact h
  · intro ts f g h
    exact destPath_inj h

/-- Witness for the amended claim C5. -/
theorem c5_amended_witness :
    (process_uploaded_images c5Env [c5File] [uploadsPath c5File] []).dedupSet
      = snapshotRefs ([] : List Row)
    ∧ c5File = c5File :=
  ⟨c5_amended.1 c5Env [c5File] [uploadsPath c5File] [],
   c5_amended.2 "T" c5File c5File rfl⟩

-- ===== C6 =====

/-- Claim C6: when the per-file pass reaches the move (non-duplicate,
nonempty extractor dict) but the insert raises a Missing-Field `KeyError`,
the file is relocated to its destination while no record is created, and
the state equation shows the traversal simply continues. -/
theorem c6_moved_but_not_cataloged (env : Env) (st : PState) (f : FileEntry)
    (enc : String) (k : String)
    (h1 : isImageFile f.name = true) (h2 : env.encode (uploadsPath f) = some enc)
    (h3 : enc ≠ "") (h4 : destPath env.ts f ∉ st.dedupSet)
    (h5 : env.analyze enc ≠ []) (h6 : firstMissing (env.analyze enc) = some k) :
    processFile env st f = { st with
        encodeCalls := st.encodeCalls ++ [uploadsPath f],
        analyzeCalls := st.analyzeCalls ++ [uploadsPath f],
        fs := moveFile st.fs (uploadsPath f) (destPath env.ts f) }
    ∧ (processFile env st f).records = st.records
    ∧ destPath env.ts f ∈ (processFile env st f).fs := by
  have hins : insert_product_info env.storeOk (env.analyze enc) (destPath env.ts f)
      = .keyError k := by
    unfold insert_product_info
    rw [h6]
  have hstep := processFile_proceed env st f enc h1 h2 h3 h4 h5
  rw [hins] at hstep
  refine ⟨?_, ?_, ?_⟩
  · rw [hstep]
    simp [rowsOf]
  · rw [hstep]
    show st.records ++ rowsOf (InsertOutcome.keyError k) = st.records
    simp [rowsOf]
  · rw [hstep]
    show destPath env.ts f ∈ moveFile st.fs (uploadsPath f) (destPath env.ts f)
    unfold moveFile
    simp

/-- Witness for claim C6 with a one-field extractor response. -/
theorem c6_witness :
    firstMissing (c6Env.analyze "E") = some "description"
    ∧ (processFile c6Env c6St c6File = { c6St with
          encodeCalls := c6St.encodeCalls ++ [uploadsPath c6File],
          analyzeCalls := c6St.analyzeCalls ++ [uploadsPath c6File],
          fs := moveFile c6St.fs (uploadsPath c6File) (destPath c6Env.ts c6File) }
       ∧ (processFile c6Env c6St c6File).records = c6St.records
       ∧ destPath c6Env.ts c6File ∈ (processFile c6Env c6St c6File).fs) :=
  ⟨rfl, c6_moved_but_not_cataloged c6Env c6St c6File "E" "description"
    rfl rfl (by decide) (by decide) (by decide) rfl⟩

/-- Claim C7 (counterexample): for the empty list the round trip fails —
the empty description list is stored as the empty string, and splitting
the empty string on the newline delimiter yields one segment, not zero. -/
theorem c7_counterexample :
    normalizeDescription (Value.strList []) = Value.str ""
    ∧ splitS "\n" (joinS "\n" ([] : List String)) = [""]
    ∧ (splitS "\n" (joinS "\n" ([] : List String))).length ≠ ([] : List String).length := by
  refine ⟨rfl, rfl, by decide⟩

/-- Claim C7 (amended): plain strings pass through both normalizations
unchanged; list values are newline-joined (description) and comma-space
joined (key_tags); and for a nonempty list of delimiter-free strings the
stored string splits back to exactly the original segments (hence the
original count), with the normalizations wired into the inserted row. -/
theorem c7_amended (s : String) (xs ys : List String) (d : Dict) (p : Path)
    (hxs : xs ≠ []) (hys : ys ≠ [])
    (hfx : ∀ x ∈ xs, occurs "\n".data x.data = false)
    (hfy : ∀ y ∈ ys, occurs ", ".data y.data = false)
    (hfull : firstMissing d = none) :
    normalizeDescription (Value.str s) = Value.str s
    ∧ normalizeKeyTags (Value.str s) = Value.str s
    ∧ normalizeDescription (Value.strList xs) = Value.str (joinS "\n" xs)
    ∧ normalizeKeyTags (Value.strList ys) = Value.str (joinS ", " ys)
    ∧ splitS "\n" (joinS "\n" xs) = xs
    ∧ splitS ", " (joinS ", " ys) = ys
    ∧ (splitS "\n" (joinS "\n" xs)).length = xs.length
    ∧ (splitS ", " (joinS ", " ys)).length = ys.length
    ∧ insert_product_info true d p = .inserted (mkRow d p)
    ∧ (mkRow d p).description = normalizeDescription (getVal d "description")
    ∧ (mkRow d p).key_tags = normalizeKeyTags (getVal d "key_tags") := by
  have hb1 : boundaryOk "\n".data := by
    rw [show "\n".data = ['\n'] from rfl]
    exact boundaryOk_single '\n'
  have hb2 : boundaryOk ", ".data := by
    rw [show ", ".data = [',', ' '] from rfl]
    exact boundaryOk_commaSpace
  have h1 : splitS "\n" (joinS "\n" xs) = xs :=
    splitS_joinS "\n" (by decide) hb1 xs hxs hfx
  have h2 : splitS ", " (joinS ", " ys) = ys :=
    splitS_joinS ", " (by decide) hb2 ys hys hfy
  have hins : insert_product_info true d p = .inserted (mkRow d p) := by
    unfold insert_product_info
    rw [hfull]
    simp
  exact ⟨rfl, rfl, rfl, rfl, h1, h2, by rw [h1], by rw [h2], hins, rfl, rfl⟩

/-- Witness for the amended claim C7 on two-element lists. -/
theorem c7_witness :
    (["a", "b"] : List String) ≠ []
    ∧ (∀ x ∈ (["a", "b"] : List String), occurs "\n".data x.data = false)
    ∧ firstMissing c7Dict = none
    ∧ (normalizeDescription (Value.str "z") = Value.str "z"
       ∧ normalizeKeyTags (Value.str "z") = Value.str "z"
       ∧ normalizeDescription (Value.strList ["a", "b"]) = Value.str (joinS "\n" ["a", "b"])
       ∧ normalizeKeyTags (Value.strList ["t1", "t2"]) = Value.str (joinS ", " ["t1", "t2"])
       ∧ splitS "\n" (joinS "\n" ["a", "b"]) = ["a", "b"]
       ∧ splitS ", " (joinS ", " ["t1", "t2"]) = ["t1", "t2"]
       ∧ (splitS "\n" (joinS "\n" ["a", "b"])).length = (["a", "b"] : List String).length
       ∧ (splitS ", " (joinS ", " ["t1", "t2"])).length = (["t1", "t2"] : List String).length
       ∧ insert_product_info true c7Dict ["p"] = .inserted (mkRow c7Dict ["p"])
       ∧ (mkRow c7Dict ["p"]).description = normalizeDescription (getVal c7Dict "description")
       ∧ (mkRow c7Dict ["p"]).key_tags = normalizeKeyTags (getVal c7Dict "key_tags")) :=
  ⟨by decide, by decide, rfl,
   c7_amended "z" ["a", "b"] ["t1", "t2"] c7Dict ["p"]
     (by decide) (by decide) (by decide) (by decide) rfl⟩

/-- Claim C8: after a fully successful run over all files of the uploads
tree, no uploads path remains on the filesystem, so a second run (whose
walk can only contain files still under the uploads root) adds no records;
and for leftover files of a partial failure, the per-file step skips a
file whose destination is recorded in the dedup set and fully processes
one whose destination is not. -/
theorem c8_rerun_no_duplicates
    (env1 env2 : Env) (walk1 walk2 : List FileEntry) (records0 : List Row)
    (hnd : walk1.Nodup)
    (hall : ∀ g ∈ walk1,
      isImageFile g.name = true
      ∧ destPath env1.ts g ∉ snapshotRefs records0
      ∧ ∃ enc, env1.encode (uploadsPath g) = some enc ∧ enc ≠ ""
          ∧ firstMissing (env1.analyze enc) = none)
    (hstore : env1.storeOk = true)
    (hw2 : ∀ g ∈ walk2, uploadsPath g
        ∈ (process_uploaded_images env1 walk1 (walk1.map uploadsPath) records0).fs) :
    (process_uploaded_images env2 walk2
        (process_uploaded_images env1 walk1 (walk1.map uploadsPath) records0).fs
        (process_uploaded_images env1 walk1 (walk1.map uploadsPath) records0).records).records
      = (process_uploaded_images env1 walk1 (walk1.map uploadsPath) records0).records
    ∧ (∀ (st : PState) (f : FileEntry) (enc : String),
        isImageFile f.name = true → env2.encode (uploadsPath f) = some enc → enc ≠ "" →
        destPath env2.ts f ∈ st.dedupSet →
        (processFile env2 st f).records = st.records ∧ (processFile env2 st f).fs = st.fs)
    ∧ (∀ (st : PState) (f : FileEntry) (enc : String),
        isImageFile f.name = true → env2.encode (uploadsPath f) = some enc → enc ≠ "" →
        destPath env2.ts f ∉ st.dedupSet → env2.analyze enc ≠ [] →
        firstMissing (env2.analyze enc) = none → env2.storeOk = true →
        (processFile env2 st f).records
          = st.records ++ [mkRow (env2.analyze enc) (destPath env2.ts f)]) := by
  refine ⟨?_, ?_, ?_⟩
  · have hempty : walk2 = [] := by
      rw [List.eq_nil_iff_forall_not_mem]
      intro g hg
      have hin := hw2 g hg
      unfold process_uploaded_images at hin
      have hmem0 : uploadsPath g ∈ walk1.map uploadsPath :=
        fold_fs_no_new_uploads env1 walk1
          { fs := walk1.map uploadsPath, records := records0,
            dedupSet := snapshotRefs records0, encodeCalls := [], analyzeCalls := [] }
          (uploadsPath g) hin (uploadsPath_take3 g)
      obtain ⟨g2, hg2, he⟩ := List.mem_map.mp hmem0
      have hgg : g2 = g := uploadsPath_inj he
      subst hgg
      obtain ⟨helig, hdst, enc, henc, hne, hfull⟩ := hall g2 hg2
      obtain ⟨l1, l2, hsplit, hf1, hf2⟩ := mem_split_nodup hg2 hnd
      subst hsplit
      have hcnt : List.count (uploadsPath g2) ((l1 ++ g2 :: l2).map uploadsPath) ≤ 1 :=
        count_le_one_of_nodup_map (l1 ++ g2 :: l2) hnd _
      have core := fold_processed_core env1 l1 l2
        { fs := (l1 ++ g2 :: l2).map uploadsPath, records := records0,
          dedupSet := snapshotRefs records0, encodeCalls := [], analyzeCalls := [] }
        g2 enc hf1 hf2 helig henc hne hfull hstore hdst hcnt
      exact core.2.1 hin
    rw [hempty]
    rfl
  · intro st f enc h1 h2 h3 h4
    have hstep := processFile_dup env2 st f enc h1 h2 h3 h4
    exact ⟨by rw [hstep], by rw [hstep]⟩
  · intro st f enc h1 h2 h3 h4 h5 h6 h7
    have hins : insert_product_info env2.storeOk (env2.analyze enc) (destPath env2.ts f)
        = .inserted (mkRow (env2.analyze enc) (destPath env2.ts f)) := by
      unfold insert_product_info
      rw [h6, h7]
      simp
    have hstep := processFile_proceed env2 st f enc h1 h2 h3 h4 h5
    rw [hstep]
    show st.records ++ rowsOf (insert_product_info env2.storeOk (env2.analyze enc)
      (destPath env2.ts f)) = st.records ++ [mkRow (env2.analyze enc) (destPath env2.ts f)]
    rw [hins]
    rfl

/-- Witness for claim C8: a one-file successful run followed by an empty
rerun. -/
theorem c8_witness :
    [c8File].Nodup
    ∧ c8Env1.storeOk = true
    ∧ (process_uploaded_images c8Env2 []
        (process_uploaded_images c8Env1 [c8File] ([c8File].map uploadsPath) []).fs
        (process_uploaded_images c8Env1 [c8File] ([c8File].map uploadsPath) []).records).records
      = (process_uploaded_images c8Env1 [c8File] ([c8File].map uploadsPath) []).records :=
  ⟨by decide, rfl,
   (c8_rerun_no_duplicates c8Env1 c8Env2 [c8File] [] [] (by decide)
     (by
       intro g hg
       rw [List.mem_singleton] at hg
       subst hg
       exact ⟨rfl, by decide, "E", rfl, by decide, rfl⟩)
     rfl
     (by intro g hg; exact absurd hg (List.not_mem_nil g))).1⟩

-- ===== C7 =====

set_option maxRecDepth 16000 in
/-- Claim C9 (counterexample): a reply wrapped in a plain ``` fence whose
body is a valid single-quoted ten-field record yields an empty extraction,
because the source only strips fences that open with the marker followed by
the json tag — refuting the claim for arbitrary fenced code blocks. -/
theorem c9_counterexample :
    analyze_image (fun _ => .reply c9PlainFenced) = .ok []
    ∧ parseObj (renderObj dq c9Pairs) = some c9Pairs
    ∧ toDict c9Pairs ≠ [] := by
  refine ⟨rfl, rfl, by decide⟩

/-- Claim C9 (amended): a reply whose text opens with the json-tagged fence
line, carries a single-quoted ten-field record on one line (values free of
quotes, backslashes and control characters, which strict-mode JSON parsing
rejects inside strings), and closes with a fence on its own final line is
fence-stripped, quote-normalized and parsed: the extraction returns the
full ten-field record, which is nonempty and passes the required-key
check. -/
theorem c9_fenced_single_quoted_parsed
    (v1 v2 v3 v4 v5 v6 v7 v8 v9 v10 : List Char)
    (h1 : safeStr v1) (h2 : safeStr v2) (h3 : safeStr v3) (h4 : safeStr v4)
    (h5 : safeStr v5) (h6 : safeStr v6) (h7 : safeStr v7) (h8 : safeStr v8)
    (h9 : safeStr v9) (h10 : safeStr v10) :
    analyze_image (fun _ => .reply (fenced (renderObj sq
        (tenPairs v1 v2 v3 v4 v5 v6 v7 v8 v9 v10))))
      = .ok (toDict (tenPairs v1 v2 v3 v4 v5 v6 v7 v8 v9 v10))
    ∧ firstMissing (toDict (tenPairs v1 v2 v3 v4 v5 v6 v7 v8 v9 v10)) = none
    ∧ toDict (tenPairs v1 v2 v3 v4 v5 v6 v7 v8 v9 v10) ≠ [] := by
  have hsafe : ∀ kv ∈ tenPairs v1 v2 v3 v4 v5 v6 v7 v8 v9 v10,
      safeStr kv.1 ∧ safeStr kv.2 := by
    intro kv hkv
    simp only [tenPairs, List.mem_cons, List.not_mem_nil, or_false] at hkv
    rcases hkv with rfl | rfl | rfl | rfl | rfl | rfl | rfl | rfl | rfl | rfl
    · exact ⟨(by decide : safeStr ("name".data)), h1⟩
    · exact ⟨(by decide : safeStr ("description".data)), h2⟩
    · exact ⟨(by decide : safeStr ("category".data)), h3⟩
    · exact ⟨(by decide : safeStr ("material".data)), h4⟩
    · exact ⟨(by decide : safeStr ("color".data)), h5⟩
    · exact ⟨(by decide : safeStr ("dimensions".data)), h6⟩
    · exact ⟨(by decide : safeStr ("origin_source".data)), h7⟩
    · exact ⟨(by decide : safeStr ("import_cost".data)), h8⟩
    · exact ⟨(by decide : safeStr ("retail_price".data)), h9⟩
    · exact ⟨(by decide : safeStr ("key_tags".data)), h10⟩
  refine ⟨?_, rfl, by simp [toDict, tenPairs]⟩
  rw [analyze_image_first_attempt]
  exact analyzeAttempt_fenced (tenPairs v1 v2 v3 v4 v5 v6 v7 v8 v9 v10)
    (by simp [tenPairs]) hsafe

set_option maxRecDepth 16000 in
/-- Witness for the amended claim C9 at concrete field values. -/
theorem c9_witness :
    safeStr "n".data
    ∧ (analyze_image (fun _ => .reply (fenced (renderObj sq c9Pairs)))
        = .ok (toDict c9Pairs)
       ∧ firstMissing (toDict c9Pairs) = none
       ∧ toDict c9Pairs ≠ []) :=
  ⟨by decide,
   c9_fenced_single_quoted_parsed "n".data "d".data "c".data "m".data "co".data
     "di".data "o".data "1".data "2".data "t".data
     (by decide) (by decide) (by decide) (by decide) (by decide)
     (by decide) (by decide) (by decide) (by decide) (by decide)⟩

/-- Claim C10: a backend reply whose text parses to the empty JSON object
makes `analyze_image` return the empty dict — exactly the value produced
by a network failure — and the pipeline step leaves both the filesystem
and the records unchanged for such a file: parse success carrying an empty
record is indistinguishable from extraction failure. -/
theorem c10_empty_object_is_failure (env : Env) (st : PState) (f : FileEntry)
    (enc : String) (backend : Nat → BackendResp)
    (hbe : backend 1 = .reply [lb, rb])
    (h1 : isImageFile f.name = true) (h2 : env.encode (uploadsPath f) = some enc)
    (h3 : enc ≠ "") (h4 : destPath env.ts f ∉ st.dedupSet)
    (h5 : env.analyze enc = []) :
    analyze_image backend = .ok []
    ∧ analyzeAttempt .netFailure = .ok []
    ∧ (processFile env st f).fs = st.fs
    ∧ (processFile env st f).records = st.records := by
  have hstep := processFile_analyze_empty env st f enc h1 h2 h3 h4 h5
  refine ⟨?_, rfl, by rw [hstep], by rw [hstep]⟩
  show retryStop (fun i => analyzeAttempt (backend i)) 1 (retryMaxAttempts - 1) = .ok []
  rw [show retryMaxAttempts - 1 = 5 from rfl, retryStop, hbe]
  rfl

/-- Witness for claim C10. -/
theorem c10_witness :
    analyze_image (fun _ => .reply [lb, rb]) = .ok []
    ∧ analyzeAttempt .netFailure = .ok []
    ∧ (processFile c10Env c10St c10File).fs = c10St.fs
    ∧ (processFile c10Env c10St c10File).records = c10St.records :=
  c10_empty_object_is_failure c10Env c10St c10File "E" (fun _ => .reply [lb, rb])
    rfl rfl rfl (by decide) (by decide) rfl

-- ===== C1 =====

end Instatory
